import Mathlib

/-!
Verification of the container-backup orchestrator against its specification.

Each section shallowly embeds the relevant Python source (service_backup.py,
backup_manager.py, retention_manager.py, service_discovery.py, main.py,
config_manager.py, database_backup.py, utils/credential_utils.py,
utils/docker_utils.py) as executable Lean definitions, and proves or refutes
the specification's claims about them.

Modelling conventions:
* Python dicts with string keys are association lists in insertion order;
  lookups scan for the first matching key, updates rewrite in place.
* Python sets are lists used only through membership.
* Exceptions raised by external calls (the container runtime, the filesystem)
  are modelled by explicit outcome parameters; `try/except` blocks become
  pattern matches on those outcomes.
* `os.environ` reads are fields of an explicit environment record.
-/

set_option maxHeartbeats 1000000
set_option linter.unusedVariables false

namespace ContainerBackup

/-!
String primitives. The embedding works on the character list underlying a
string (`String.data`), with the same semantics as the Python operations;
this keeps every definition reducible by the kernel. -/

/-- Python `s.startswith(p)`. -/
def pyStartsWith (s p : String) : Bool := p.data.isPrefixOf s.data

/-- Python `s.endswith(p)`. -/
def pyEndsWith (s p : String) : Bool := p.data.isSuffixOf s.data

/-- Python `s[n:]`. -/
def pyDrop (s : String) (n : Nat) : String := ⟨s.data.drop n⟩

/-- Python `s[:-n]` (for `0 < n ≤ len(s)`). -/
def pyDropRight (s : String) (n : Nat) : String := ⟨s.data.take (s.data.length - n)⟩

/-- Python `s[-n:]` (for `0 < n ≤ len(s)`). -/
def pyTakeRight (s : String) (n : Nat) : String := ⟨s.data.drop (s.data.length - n)⟩

/-- Python `len(s)`. -/
def strLen (s : String) : Nat := s.data.length

/-- Python `s.lower()` (ASCII case folding). -/
def pyToLower (s : String) : String := ⟨s.data.map Char.toLower⟩

/-- Substring search on character lists. -/
def listContains : List Char → List Char → Bool
  | [], n => n.isPrefixOf []
  | h :: t, n => n.isPrefixOf (h :: t) || listContains t n

/-- Python `needle in haystack` on strings (substring containment; the empty
needle is contained in everything). -/
def strContains (s pat : String) : Bool := listContains s.data pat.data

/-- Python `str.strip()` (whitespace at both ends). -/
def pyStrip (s : String) : String :=
  ⟨((s.data.dropWhile Char.isWhitespace).reverse.dropWhile Char.isWhitespace).reverse⟩

/-- Python `haystack.replace(old, new)` on character lists, with a fuel bound
(always called with fuel exceeding the haystack length, so the bound is never
hit). -/
def listReplace : Nat → List Char → List Char → List Char → List Char
  | 0, cs, _, _ => cs
  | _ + 1, [], _, _ => []
  | fuel + 1, c :: t, pat, rep =>
    if pat ≠ [] && pat.isPrefixOf (c :: t) then
      rep ++ listReplace fuel ((c :: t).drop pat.length) pat rep
    else c :: listReplace fuel t pat rep

/-- Python `s.replace(old, new)` (all occurrences, left to right). -/
def pyReplace (s old new : String) : String :=
  ⟨listReplace (s.data.length + 1) s.data old.data new.data⟩

/-- Python `a < b` on strings: lexicographic comparison by code point. -/
def charListLt : List Char → List Char → Bool
  | _, [] => false
  | [], _ :: _ => true
  | a :: as, b :: bs =>
    if a < b then true else if b < a then false else charListLt as bs

/-- Python `a <= b` on strings. -/
def pyStrLe (a b : String) : Bool := !charListLt b.data a.data

/-- Python `a < b` on strings. -/
def pyStrLt (a b : String) : Bool := charListLt a.data b.data

/-- Python truthiness for `Option String` fields of a dict: absent, or the
empty string, is falsy. -/
def truthyOptStr : Option String → Bool
  | none => false
  | some s => !(s = "")

/-- First-match lookup in an insertion-ordered dict. -/
def dictLookup (m : List (String × String)) (k : String) : Option String :=
  (m.find? (fun kv => kv.1 == k)).map (fun kv => kv.2)

/-- In-place value update of an insertion-ordered dict (key order unchanged),
as assignment to an existing key behaves in Python. -/
def dictUpdate (m : List (String × String)) (k v : String) : List (String × String) :=
  m.map (fun kv => if kv.1 == k then (kv.1, v) else kv)

/-! ## utils/docker_utils.py -/

/-- View of a Python object passed as the `container` argument: its truthiness
and which of the attributes `id`, `name`, `attrs` it has (`exec_in_container`
only interrogates these through `_is_valid_container`). -/
structure PyContainerView where
  isTruthy : Bool
  hasId : Bool
  hasName : Bool
  hasAttrs : Bool

/-- A Python value passed as the `command` argument: either a `str` or some
other object (isinstance check). -/
inductive PyCommand where
  | str (s : String)
  | nonStr
deriving DecidableEq

/-- Behaviour of the runtime call `container.exec_run(...)`: it either raises
an exception (whose `str(e)` is recorded) or returns an exit code and the
already-decoded output (`decode('utf-8', errors='replace')` never raises). -/
inductive ExecRunBehavior where
  | raises (msg : String)
  | returns (exitCode : Int) (output : String)
deriving DecidableEq

/-- docker_utils._is_valid_container: falsy objects and objects missing any of
the attributes `id`, `name`, `attrs` are invalid. `None` is `Option.none`. -/
def isValidContainer : Option PyContainerView → Bool
  | none => false
  | some c => c.isTruthy && (c.hasId && c.hasName && c.hasAttrs)

/-- docker_utils.exec_in_container, embedded as a total function: every
exception path of the source is caught and converted to `(-1, message)`. -/
def exec_in_container (container : Option PyContainerView) (command : PyCommand)
    (env : List (String × String)) (runtime : ExecRunBehavior) : Int × String :=
  if !isValidContainer container then
    (-1, "Invalid container object")
  else
    match command with
    | .nonStr => (-1, "Invalid command")
    | .str s =>
      if pyStrip s = "" then (-1, "Invalid command")
      else
        match runtime with
        | .raises msg => (-1, msg)
        | .returns code out => (code, out)

/-! ## service_discovery.py -/

/-- The slice of a container object read by `ServiceDiscovery._get_service_name`:
whether it has a `labels` attribute, the labels dict, and the name. -/
structure DiscContainer where
  hasLabels : Bool
  labels : List (String × String)
  name : String

/-- The `for stack_name in stacks.keys()` loop of `_get_service_name`: returns
the first stack name (in registry iteration order) whose name followed by an
underscore is a prefix of the container name, else the container name. -/
def stackNameLoop (containerName : String) : List String → String
  | [] => containerName
  | s :: rest =>
    if pyStartsWith containerName (s ++ "_") then s
    else stackNameLoop containerName rest

/-- service_discovery.ServiceDiscovery._get_service_name: label chain, then
the stack-prefix loop, then the container name. -/
def getServiceName (c : DiscContainer) (stackList : List String) : String :=
  let labels := if c.hasLabels then c.labels else []
  match dictLookup labels "com.docker.compose.project" with
  | some v => v
  | none =>
    match dictLookup labels "io.docker.compose.project" with
    | some v => v
    | none =>
      match dictLookup labels "io.portainer.stackname" with
      | some v => v
      | none => stackNameLoop c.name stackList

/-- Specification-side restatement of the naming rule with the stack-prefix
step expressed as a first-match search in registry iteration order. -/
def specServiceName (c : DiscContainer) (stackList : List String) : String :=
  let labels := if c.hasLabels then c.labels else []
  match dictLookup labels "com.docker.compose.project" with
  | some v => v
  | none =>
    match dictLookup labels "io.docker.compose.project" with
    | some v => v
    | none =>
      match dictLookup labels "io.portainer.stackname" with
      | some v => v
      | none =>
        (stackList.find? (fun s => pyStartsWith c.name (s ++ "_"))).getD c.name

/-- Modelled from the spec: the claim's step (4), "the longest stack-name
prefix of the container name followed by an underscore", as a direct search
for the matching stack of maximal length. -/
def longestStackPfx (containerName : String) (stackList : List String) : Option String :=
  (stackList.filter (fun s => pyStartsWith containerName (s ++ "_"))).foldl
    (fun best s =>
      match best with
      | none => some s
      | some b => if strLen s > strLen b then some s else some b) none

/-! ## config_manager.py -/

/-- The `database` sub-dict of a service configuration. -/
structure DatabaseConfig where
  dbType : Option String
  requires_stopping : Bool
  container_patterns : List String
deriving DecidableEq

/-- The `files` sub-dict of a service configuration. -/
structure FilesConfig where
  data_paths : List String
  requires_stopping : Bool
  exclusions : List String
deriving DecidableEq

/-- The `global` sub-dict of a service configuration. -/
structure GlobalConfig where
  backup_retention : Nat
  exclude_from_backup : Bool
  priority : Nat
deriving DecidableEq

/-- An effective service configuration dict. `topRequiresStopping` models the
presence (and value) of a top-level `requires_stopping` key: `none` means the
key is absent, in which case `config.get('requires_stopping', False)` yields
`False`. The merge in `get_service_config` only ever writes the keys
`database`, `files`, `global` of the built-in sources, so configurations
produced from the defaults have `topRequiresStopping = none`. -/
structure ServiceConfig where
  database : DatabaseConfig
  files : FilesConfig
  globalCfg : GlobalConfig
  topRequiresStopping : Option Bool := none
deriving DecidableEq

/-- config_manager.ConfigurationManager._get_default_config. -/
def defaultServiceConfig : ServiceConfig :=
  { database :=
      { dbType := none
        requires_stopping := true
        container_patterns := [] }
    files :=
      { data_paths := []
        requires_stopping := true
        exclusions := [] }
    globalCfg :=
      { backup_retention := 7
        exclude_from_backup := false
        priority := 50 }
    topRequiresStopping := none }

/-- The quiesce-entry condition computed at the top of
`ServiceBackup.backup`: `requires_stopping = self.config.get('requires_stopping',
False)`, then forced to `True` when the backup method is `container_cp`. -/
def requiresStoppingEffective (cfg : ServiceConfig) (backupMethod : String) : Bool :=
  let requiresStopping := cfg.topRequiresStopping.getD false
  if backupMethod == "container_cp" then true else requiresStopping

/-! ## backup_manager.py: lock acquisition -/

/-- The fields `_create_lock` reads from a parsed lock record, after the
`lock_data.get('timestamp', 0)` / `lock_data.get('pid', 0)` defaults. -/
structure LockRecord where
  timestamp : Int
  pid : Int
deriving DecidableEq

/-- Outcome of the contention branch of `_create_lock` when a lock file
already exists. -/
inductive LockDecision where
  | replace
  | refuse
deriving DecidableEq

/-- backup_manager.BackupManager._create_lock, contention branch: `parsed` is
the result of `json.loads` on the existing lock (`none` for a
`JSONDecodeError`), `now` is `time.time()`, `selfPid` is `os.getpid()`, and
`alive pid` tells whether `os.kill(pid, 0)` succeeds on this host. Note the
source skips the liveness probe when the recorded pid is its own, leaving
`process_running = False`. -/
def lockContentionDecision (parsed : Option LockRecord) (now : Int)
    (selfPid : Int) (alive : Int → Bool) : LockDecision :=
  match parsed with
  | none => .replace
  | some r =>
    let processRunning :=
      if r.pid > 0 then
        if r.pid ≠ selfPid then alive r.pid else false
      else false
    if now - r.timestamp > 3 * 3600 || !processRunning then .replace
    else .refuse

/-! ## backup_manager.py / main.py: lock refusal handling -/

/-- Result of `_create_lock` as seen by `_run_backup_with_lock`: either a lock
path was produced or `None` came back. -/
inductive LockAcquire where
  | acquired
  | refused
deriving DecidableEq

/-- Outcome of the `service.backup()` call: a boolean result or an exception. -/
inductive BackupOutcome where
  | ok (success : Bool)
  | exc
deriving DecidableEq

/-- backup_manager.BackupManager._run_backup_with_lock: self-backup and
exclusion short-circuits return True; a refused lock logs an error and
returns False; otherwise the backup result is returned (False on exception),
with the lock removed on every path. -/
def runBackupWithLock (isBackupService isExcluded : Bool)
    (lock : LockAcquire) (outcome : BackupOutcome) : Bool :=
  if isBackupService then true
  else if isExcluded then true
  else
    match lock with
    | .refused => false
    | .acquired =>
      match outcome with
      | .ok success => success
      | .exc => false

/-- main.main, `backup` command: exit 1 when the number of successful results
is below the number of results, else exit 0. -/
def backupCliExitCode (results : List (String × Bool)) : Nat :=
  let successCount := (results.filter (fun r => r.2)).length
  if successCount < results.length then 1 else 0

/-! ## utils/credential_utils.py: env reference resolution -/

/-- An environment dict: insertion-ordered association list with string keys
and string values. -/
abbrev EnvMap := List (String × String)

/-- credential_utils.resolve_env_var: substitute a whole-value reference.
The source first handles a value wrapped as a brace reference, then a bare
reference; an unresolvable reference is returned unchanged. Note that when
the value parses as a brace reference whose variable is absent, the source
falls through to `return value` without trying the bare form. -/
def resolveEnvVar (value : String) (env : EnvMap) : String :=
  if !pyStartsWith value "$" then value
  else if pyStartsWith value "$\x7b" && pyEndsWith value "\x7d" then
    let varName := pyDropRight (pyDrop value 2) 1
    match dictLookup env varName with
    | some v => v
    | none => value
  else
    let varName := pyDrop value 1
    match dictLookup env varName with
    | some v => v
    | none => value

/-- The iteration of one pass of `resolve_env_var_references` over the key
sequence: values are updated in place, and the `any_resolved` flag is carried
along. -/
def sweepGo : List String → EnvMap × Bool → EnvMap × Bool
  | [], acc => acc
  | k :: ks, acc =>
    match dictLookup acc.1 k with
    | none => sweepGo ks acc
    | some v =>
      let newV := resolveEnvVar v acc.1
      if newV ≠ v then sweepGo ks (dictUpdate acc.1 k newV, true)
      else sweepGo ks acc

/-- One pass of `resolve_env_var_references`: iterate the keys in insertion
order (updates never change the key sequence), returning the updated map and
the `any_resolved` flag. -/
def sweepEnv (m : EnvMap) : EnvMap × Bool :=
  sweepGo (m.map (fun kv => kv.1)) (m, false)

/-- credential_utils.resolve_env_var_references: up to three passes of
substitution, stopping early when a pass resolves nothing. -/
def resolveEnvVarReferences (m : EnvMap) : EnvMap :=
  if m.isEmpty then []
  else
    let p1 := sweepEnv m
    if !p1.2 then p1.1
    else
      let p2 := sweepEnv p1.1
      if !p2.2 then p2.1
      else (sweepEnv p2.1).1

/-! ## database_backup.py: credential validation and dump commands -/

/-- A Python value held in a credentials dict: an int (ports extracted from
URLs) or a str. -/
inductive PyVal where
  | int (n : Int)
  | str (s : String)
deriving DecidableEq

/-- Python truthiness of such a value. -/
def PyVal.truthy : PyVal → Bool
  | .int n => n ≠ 0
  | .str s => s ≠ ""

/-- Python `str(v)`. -/
def PyVal.toStr : PyVal → String
  | .int n => toString n
  | .str s => s

/-- Python `str.isdigit()` restricted to ASCII digits (all characters digits
and the string nonempty). -/
def pyIsDigit (s : String) : Bool :=
  s ≠ "" && s.toList.all (fun c => c.isDigit)

/-- The credentials dict as consumed by the dump routines. `none` models an
absent key. -/
structure Credentials where
  user : Option String := none
  password : Option String := none
  database : Option String := none
  host : Option String := none
  port : Option PyVal := none
  authSource : Option String := none
deriving DecidableEq

/-- The injection blacklist used inline by `_backup_postgres` and
`_backup_mysql` (and by `_validate_path`): it contains the dollar sign. -/
def dangerousCharsFull : List String :=
  [";", "&&", "||", "`", "$", "|", ">", "<"]

/-- The blacklist of `_validate_credential` (used by `_backup_mongodb` and
`_backup_redis`): the dollar sign is absent from it. -/
def dangerousCharsNoDollar : List String :=
  [";", "&&", "||", "`", "|", ">", "<"]

/-- Python `any(c in value for c in chars)`. -/
def containsAnyOf (value : String) (chars : List String) : Bool :=
  chars.any (fun c => strContains value c)

/-- database_backup.DatabaseBackup._validate_credential. -/
def validateCredential (key : String) (value : PyVal) : Bool :=
  if key == "port" then
    match value with
    | .int n => 1 ≤ n && n ≤ 65535
    | .str s => if pyIsDigit s then 1 ≤ s.toNat! && s.toNat! ≤ 65535 else false
  else
    match value with
    | .int _ => false
    | .str s => !containsAnyOf s dangerousCharsNoDollar

/-- A dump attempt either fails before reaching the container (with the
logged reason) or executes a command string inside the container with an
environment for secrets. -/
abbrev DumpPlan := Except String (String × EnvMap)

/-- Boolean test that a dump attempt never reached the container. -/
def DumpPlan.failedEarly : DumpPlan → Bool
  | .error _ => true
  | .ok _ => false

/-- database_backup.DatabaseBackup._backup_postgres up to the
`exec_in_container` call: credential presence check, inline blacklist
validation of user/database/host, numeric port check, then the `pg_dump`
command string and the `PGPASSWORD` environment. -/
def backupPostgresCommand (cr : Credentials) : DumpPlan :=
  if !truthyOptStr cr.user || !truthyOptStr cr.database then
    .error "Missing required PostgreSQL credentials"
  else
    let user := cr.user.getD ""
    let database := cr.database.getD ""
    let host := cr.host.getD ""
    let port := cr.port.getD (.str "")
    if containsAnyOf user dangerousCharsFull then
      .error "Invalid characters in user parameter"
    else if containsAnyOf database dangerousCharsFull then
      .error "Invalid characters in database parameter"
    else if containsAnyOf host dangerousCharsFull then
      .error "Invalid characters in host parameter"
    else if port.truthy && !pyIsDigit port.toStr then
      .error "Port must be numeric"
    else
      let cmd := ["pg_dump", "-U", user]
        ++ (if host ≠ "" && host ≠ "localhost" then ["-h", host] else [])
        ++ (if port.truthy then ["-p", port.toStr] else [])
        ++ [database]
      let env := if truthyOptStr cr.password then [("PGPASSWORD", cr.password.getD "")] else []
      .ok (String.intercalate " " cmd, env)

/-- database_backup.DatabaseBackup._backup_mysql up to the
`exec_in_container` call. Validation of user/database/host is skipped for
falsy values; a missing database selects `--all-databases`; the password goes
into `MYSQL_PWD`. -/
def backupMysqlCommand (cr : Credentials) : DumpPlan :=
  if !truthyOptStr cr.user then
    .error "Missing required MySQL credentials"
  else
    let user := cr.user.getD ""
    let database := cr.database.getD ""
    let host := cr.host.getD ""
    let port := cr.port.getD (.str "")
    if user ≠ "" && containsAnyOf user dangerousCharsFull then
      .error "Invalid characters in user parameter"
    else if database ≠ "" && containsAnyOf database dangerousCharsFull then
      .error "Invalid characters in database parameter"
    else if host ≠ "" && containsAnyOf host dangerousCharsFull then
      .error "Invalid characters in host parameter"
    else if port.truthy && !pyIsDigit port.toStr then
      .error "Port must be numeric"
    else
      let cmd := ["mysqldump", "-u", user]
        ++ (if host ≠ "" && host ≠ "localhost" then ["-h", host] else [])
        ++ (if port.truthy then ["-P", port.toStr] else [])
        ++ (if database ≠ "" then [database] else ["--all-databases"])
        ++ ["--single-transaction", "--quick", "--lock-tables=false"]
      let env := if truthyOptStr cr.password then [("MYSQL_PWD", cr.password.getD "")] else []
      .ok (String.intercalate " " cmd, env)

/-- The validation loop shared by `_backup_mongodb` and `_backup_redis`: each
listed key that is present and truthy must pass `_validate_credential`. -/
def validateCredList (fields : List (String × Option PyVal)) : Bool :=
  fields.all (fun f =>
    match f.2 with
    | none => true
    | some v => if v.truthy then validateCredential f.1 v else true)

/-- database_backup.DatabaseBackup._backup_mongodb up to the mongodump
`exec_in_container` call (the preceding `mkdir -p` housekeeping command is
not part of the dump). Validation goes through `_validate_credential`; the
password is exported as `MONGO_PASSWORD` and the command string is rewritten
by `str.replace` to prepend the variable assignment. -/
def backupMongodbCommand (cr : Credentials) : DumpPlan :=
  let fields : List (String × Option PyVal) :=
    [("user", cr.user.map .str), ("password", cr.password.map .str),
     ("host", cr.host.map .str), ("port", cr.port),
     ("database", cr.database.map .str), ("authSource", cr.authSource.map .str)]
  if !validateCredList fields then
    .error "Invalid parameter in MongoDB credentials"
  else
    let keep : Option String → Option String := fun v =>
      match v with
      | some s => if s ≠ "" then some s else none
      | none => none
    let user := keep cr.user
    let password := keep cr.password
    let host := keep cr.host
    let database := keep cr.database
    let authSource := keep cr.authSource
    let port := match cr.port with
      | some v => if v.truthy then some v else none
      | none => none
    let cmd := ["mongodump", "--out=/tmp/mongodb_backup"]
      ++ (match user, password with
          | some u, some _ => ["--username=" ++ u]
          | _, _ => [])
      ++ (match authSource with
          | some a => ["--authenticationDatabase=" ++ a]
          | none => [])
      ++ (match host with
          | some h => if h ≠ "localhost" then ["--host=" ++ h] else []
          | none => [])
      ++ (match port with
          | some p => ["--port=" ++ p.toStr]
          | none => [])
      ++ (match database with
          | some d => ["--db=" ++ d]
          | none => [])
    let cmdStr := String.intercalate " " cmd
    match password with
    | some pw =>
      .ok (pyReplace cmdStr "--username=" "MONGO_PASSWORD=\"$MONGO_PASSWORD\" --username=",
           [("MONGO_PASSWORD", pw)])
    | none => .ok (cmdStr, [])

/-- database_backup.DatabaseBackup._backup_redis up to the `redis-cli`
`exec_in_container` call, for the branch where no pre-existing RDB file is
used. Validation goes through `_validate_credential` before any container
command runs. -/
def backupRedisCliCommand (cr : Credentials) : DumpPlan :=
  let fields : List (String × Option PyVal) :=
    [("password", cr.password.map .str), ("host", cr.host.map .str), ("port", cr.port)]
  if !validateCredList fields then
    .error "Invalid parameter in Redis credentials"
  else
    let keep : Option String → Option String := fun v =>
      match v with
      | some s => if s ≠ "" then some s else none
      | none => none
    let password := keep cr.password
    let host := keep cr.host
    let port := match cr.port with
      | some v => if v.truthy then some v else none
      | none => none
    let cmd := ["redis-cli", "--rdb /tmp/redis_backup.rdb"]
      ++ (match host with
          | some h => if h ≠ "localhost" then ["-h " ++ h] else []
          | none => [])
      ++ (match port with
          | some p => ["-p " ++ p.toStr]
          | none => [])
    let cmdStr := String.intercalate " " cmd
    match password with
    | some pw =>
      .ok ("REDISCLI_AUTH=\"$REDIS_PASSWORD\" " ++ cmdStr, [("REDIS_PASSWORD", pw)])
    | none => .ok (cmdStr, [])

/-! ## Calendar arithmetic

Pure arithmetic used to embed `datetime` values parsed by
`datetime.strptime(ts, "%Y%m%d_%H%M%S")`, `timedelta(days=n)` subtraction,
and the `%V` ISO week number of `strftime`. Dates are proleptic Gregorian, as
in CPython. -/

/-- Days since 1970-01-01 of a proleptic Gregorian civil date (standard
era-based conversion). -/
def civilToDays (y m d : Int) : Int :=
  let y := if m ≤ 2 then y - 1 else y
  let era := (if y ≥ 0 then y else y - 399) / 400
  let yoe := y - era * 400
  let mp := (m + 9) % 12
  let doy := (153 * mp + 2) / 5 + d - 1
  let doe := yoe * 365 + yoe / 4 - yoe / 100 + doy
  era * 146097 + doe - 719468

/-- Inverse of `civilToDays`. -/
def daysToCivil (z : Int) : Int × Int × Int :=
  let z := z + 719468
  let era := (if z ≥ 0 then z else z - 146096) / 146097
  let doe := z - era * 146097
  let yoe := (doe - doe / 1460 + doe / 36524 - doe / 146096) / 365
  let y := yoe + era * 400
  let doy := doe - (365 * yoe + yoe / 4 - yoe / 100)
  let mp := (5 * doy + 2) / 153
  let d := doy - (153 * mp + 2) / 5 + 1
  let m := if mp < 10 then mp + 3 else mp - 9
  (if m ≤ 2 then y + 1 else y, m, d)

/-- Leap year test. -/
def isLeapYear (y : Nat) : Bool :=
  y % 4 == 0 && (y % 100 != 0 || y % 400 == 0)

/-- Number of days of a month. -/
def daysInMonth (y m : Nat) : Nat :=
  if m == 2 then (if isLeapYear y then 29 else 28)
  else if m == 4 || m == 6 || m == 9 || m == 11 then 30
  else 31

/-- Ordinal day of the year (1-based). -/
def dayOfYear (y m d : Nat) : Nat :=
  ((List.range (m - 1)).map (fun i => daysInMonth y (i + 1))).sum + d

/-- ISO weekday, 1 = Monday .. 7 = Sunday (1970-01-01 was a Thursday). -/
def isoWeekday (y m d : Nat) : Nat :=
  (((civilToDays (Int.ofNat y) (Int.ofNat m) (Int.ofNat d)) + 3) % 7).toNat + 1

/-- Number of ISO weeks of a year (52 or 53). -/
def isoWeeksInYear (y : Nat) : Nat :=
  let p : Nat → Nat := fun n => (n + n / 4 - n / 100 + n / 400) % 7
  if p y == 4 || p (y - 1) == 3 then 53 else 52

/-- The ISO year and ISO week number of a civil date; the week component is
what `strftime('%V')` prints. -/
def isoYearWeek (y m d : Nat) : Nat × Nat :=
  let wd := isoWeekday y m d
  let w := (dayOfYear y m d + 10 - wd) / 7
  if w = 0 then (y - 1, isoWeeksInYear (y - 1))
  else if isoWeeksInYear y < w then (y + 1, 1)
  else (y, w)

/-- A parsed `datetime` value. CPython validates field ranges on
construction, so values reaching the retention code are always in range. -/
structure Timestamp where
  year : Nat
  month : Nat
  day : Nat
  hour : Nat
  minute : Nat
  second : Nat
deriving DecidableEq

/-- Injective key of an in-range timestamp; `datetime` comparison on valid
dates coincides with comparison of this key. -/
def tsKey (t : Timestamp) : Nat :=
  ((((t.year * 13 + t.month) * 32 + t.day) * 24 + t.hour) * 60 + t.minute) * 60 + t.second

/-- The `datetime` strict order on parsed timestamps. -/
def tsLt (a b : Timestamp) : Bool := tsKey a < tsKey b

/-- The `datetime` order on parsed timestamps. -/
def tsLe (a b : Timestamp) : Bool := tsKey a ≤ tsKey b

/-- `now - timedelta(days=n)` on the date part (the time of day is
unchanged). -/
def tsSubDays (t : Timestamp) (n : Int) : Timestamp :=
  let c := daysToCivil (civilToDays (Int.ofNat t.year) (Int.ofNat t.month) (Int.ofNat t.day) - n)
  { t with year := c.1.toNat, month := c.2.1.toNat, day := c.2.2.toNat }

/-- Character list of a string (helper for fixed-width parsing). -/
def strChars (s : String) : List Char := s.data

/-- Parse a run of ASCII digits as a number; `none` when some character is
not a digit. -/
def parseDigits (cs : List Char) : Option Nat :=
  if cs.all (fun c => c.isDigit) && cs ≠ [] then
    some (cs.foldl (fun acc c => acc * 10 + (c.toNat - 48)) 0)
  else none

/-- `datetime.strptime(s, "%Y%m%d_%H%M%S")`: fixed-width fields with
validation of calendar ranges (raising = `none`). -/
def strptimeCompact (s : String) : Option Timestamp :=
  let cs := strChars s
  if cs.length = 15 then
    match parseDigits (cs.take 4), parseDigits ((cs.drop 4).take 2),
          parseDigits ((cs.drop 6).take 2), cs.get? 8,
          parseDigits ((cs.drop 9).take 2), parseDigits ((cs.drop 11).take 2),
          parseDigits ((cs.drop 13).take 2) with
    | some y, some mo, some d, some sep, some h, some mi, some sec =>
      if sep = '_' && 1 ≤ y && 1 ≤ mo && mo ≤ 12 && 1 ≤ d && d ≤ daysInMonth y mo
          && h ≤ 23 && mi ≤ 59 && sec ≤ 59 then
        some ⟨y, mo, d, h, mi, sec⟩
      else none
    | _, _, _, _, _, _, _ => none
  else none

/-! ## retention_manager.py -/

/-- The filename regex `^(.+)_(\d\x7b8\x7d_\d\x7b6\x7d)\.tar\.gz$` followed
by `strptime`: the timestamp group is the final 15 characters of the stem,
preceded by an underscore and a nonempty prefix (the suffix of the pattern
has fixed width, so the greedy group decomposes uniquely). Returns the parsed
timestamp of `_get_backup_timestamp` (or `none`, as when `re.match` fails or
`strptime` raises). -/
def getBackupTimestamp (filename : String) : Option Timestamp :=
  if pyEndsWith filename ".tar.gz" then
    let stem := pyDropRight filename 7
    if strLen stem ≥ 17 && pyEndsWith (pyDropRight stem 15) "_" then
      strptimeCompact (pyTakeRight stem 15)
    else none
  else none

/-- A file in the backup directory tree, identified by its path relative to
the backup directory and its raw content. Lock files created by the backup
manager live under the `locks/` subdirectory. -/
structure FsFile where
  path : String
  content : String
deriving DecidableEq

/-- A snapshot of the backup directory tree. -/
abbrev BackupDirFs := List FsFile

/-- Whether a relative path is a direct child of the backup directory
(non-recursive `Path.glob` only yields direct children). -/
def isTopLevelPath (p : String) : Bool := !strContains p "/"

/-- retention_manager.RetentionManager._get_active_backups: scan
`backup_dir.glob("*.lock")` (direct children of the backup directory only),
read each file's stripped content as a backup filename, and keep it when a
file of that name exists in the backup directory. -/
def getActiveBackups (fs : BackupDirFs) : List String :=
  (fs.filter (fun f => isTopLevelPath f.path && pyEndsWith f.path ".lock")).foldl
    (fun acc f =>
      let backupName := pyStrip f.content
      if fs.any (fun g => g.path == backupName) then acc ++ [backupName] else acc)
    []

/-- retention_manager.RetentionManager._get_service_backups: the glob
`f"{service}_*.tar.gz"` over direct children of the backup directory. -/
def getServiceBackups (fs : BackupDirFs) (service : String) : List String :=
  (fs.filter (fun f =>
    isTopLevelPath f.path && pyStartsWith f.path (service ++ "_")
      && pyEndsWith (pyDrop f.path (strLen service + 1)) ".tar.gz")).map (fun f => f.path)

/-- retention_manager.RetentionManager.apply_time_based_retention: removes
every matching backup older than `now - timedelta(days=days)` that is not in
the active set, returning the removed paths and their count (`os.remove` is
modelled as succeeding). -/
def applyTimeBasedRetention (fs : BackupDirFs) (service : String) (days : Int)
    (now : Timestamp) (active : List String) : List String × Nat :=
  if days ≤ 0 then ([], 0)
  else
    let cutoff := tsSubDays now days
    (getServiceBackups fs service).foldl
      (fun acc p =>
        if active.contains p then acc
        else
          match getBackupTimestamp p with
          | none => acc
          | some ts => if tsLt ts cutoff then (acc.1 ++ [p], acc.2 + 1) else acc)
      ([], 0)

/-- backup_manager.BackupManager._create_new_lock writes the lock as a JSON
object at `locks/<service>.lock`; the written content (shape as produced by
`json.dumps` on the lock dict). -/
def createNewLockContent (service backupName : String) (timestamp pid : Int)
    (hostname : String) : String :=
  "\x7b\"service\": \"" ++ service ++ "\", \"backup_name\": \"" ++ backupName
    ++ "\", \"timestamp\": " ++ toString timestamp ++ ", \"pid\": " ++ toString pid
    ++ ", \"hostname\": \"" ++ hostname ++ "\"\x7d"

/-- The lock file as placed on disk by the backup manager for a service:
path `locks/<service>.lock` under the backup directory. -/
def lockFileFor (service backupName : String) (timestamp pid : Int)
    (hostname : String) : FsFile :=
  ⟨"locks/" ++ service ++ ".lock",
   createNewLockContent service backupName timestamp pid hostname⟩

/-! ## service_backup.py: stop/backup/restart pipeline

Containers are identified by their `id`; the mutable `status` attribute is an
explicit map from ids to status strings. `container.stop(timeout=30)` and
`container.start()` are modelled as taking effect (the claims under proof are
about the pipeline's control flow, not runtime reliability). Exceptions
raised inside the stop loop are modelled by an optional iteration index. -/

/-- The attributes of a container object read by the pipeline. -/
structure SBContainer where
  id : String
  name : String
  hasId : Bool := true
  hasName : Bool := true
  hasStatus : Bool := true
  hasLabels : Bool := true
  hasImage : Bool := true
  labels : List (String × String) := []
  imageStr : String := ""
deriving DecidableEq

/-- Status assignment for container ids. -/
abbrev StatusMap := String → String

/-- Point update of a status map. -/
def statusUpdate (st : StatusMap) (id v : String) : StatusMap :=
  fun x => if x = id then v else st x

/-- The process-environment facts consulted by the pipeline. -/
structure BackupEnv where
  backupMethod : String := "mounts"
  backupServiceNames : String := "container-backup,backup"
  hostname : Option String := none
  cgroupContainerId : Option String := none
  hostnameEnv : String := ""

/-- service_backup.ServiceBackup._is_current_container, with the identifier
dict of `_get_current_container_identifiers` drawn from the environment
record. -/
def isCurrentContainer (env : BackupEnv) (c : SBContainer) : Bool :=
  if !c.hasId || !c.hasName then false
  else if (match env.cgroupContainerId with
           | some cid => cid ≠ "" && c.id == cid
           | none => false) then true
  else if (match env.hostname with
           | some h => h ≠ "" && c.name == h
           | none => false) then true
  else if env.hostnameEnv ≠ "" && c.name == env.hostnameEnv then true
  else
    let backupNames := (env.backupServiceNames.splitOn ",").map (fun n => pyStrip n)
    backupNames.any (fun n => c.name == n || pyStartsWith c.name (n ++ "_"))

/-- service_backup.ServiceBackup._check_hot_backup_support: the
`backup.hot=true` label, or a database-family image (label
`org.opencontainers.image.name`, falling back to `str(container.image)`). -/
def checkHotBackupSupport (c : SBContainer) : Bool :=
  if !c.hasName || !c.hasLabels then false
  else if pyToLower ((dictLookup c.labels "backup.hot").getD "") == "true" then true
  else
    let image := (dictLookup c.labels "org.opencontainers.image.name").getD ""
    let image := if image == "" && c.hasImage then c.imageStr else image
    ["postgres", "mysql", "mariadb", "mongodb", "redis"].any
      (fun t => strContains (pyToLower image) t)

/-- The loop body of `_stop_containers` over the (already reversed) container
list. `failAt` is the iteration at which an exception interrupts the loop; a
running container without a `name` attribute raises when the stop is logged.
Returns the status map, the accumulated `stopped_containers`, and whether the
loop was interrupted. -/
def stopLoop (env : BackupEnv) :
    List SBContainer → Option Nat → StatusMap → List SBContainer →
      StatusMap × List SBContainer × Bool
  | [], _, st, acc => (st, acc, false)
  | c :: rest, failAt, st, acc =>
    if failAt = some 0 then (st, acc, true)
    else
      let failAt' := failAt.map (fun n => n - 1)
      if isCurrentContainer env c then stopLoop env rest failAt' st acc
      else if checkHotBackupSupport c then stopLoop env rest failAt' st acc
      else if c.hasStatus && st c.id == "running" then
        if c.hasName then
          stopLoop env rest failAt' (statusUpdate st c.id "exited") (acc ++ [c])
        else (st, acc, true)
      else stopLoop env rest failAt' st acc

/-- service_backup.ServiceBackup._start_containers: start every remembered
container in order (skipping objects without a `name` attribute); with the
runtime taking effect, each started container ends in status `running`. -/
def startContainers (st : StatusMap) : List SBContainer → StatusMap
  | [] => st
  | c :: rest =>
    startContainers (if c.hasName then statusUpdate st c.id "running" else st) rest

/-- service_backup.ServiceBackup._stop_containers: iterate the service's
containers in reverse order; on an exception, restart whatever was stopped so
far and return the empty list. -/
def stopContainersRun (env : BackupEnv) (containers : List SBContainer)
    (st : StatusMap) (failAt : Option Nat) : StatusMap × List SBContainer :=
  let r := stopLoop env containers.reverse failAt st []
  if r.2.2 then (startContainers r.1 r.2.1, [])
  else (r.1, r.2.1)

/-- Outcome of one backup phase (`_backup_databases`,
`_backup_bind_mounts` / `_backup_container_data`): a boolean result, or an
exception that propagates to the enclosing handler. -/
inductive StepOutcome where
  | ok (success : Bool)
  | exc
deriving DecidableEq

/-- The success computation of the inner `try` of `ServiceBackup.backup`
(none of these phases stops or starts containers). -/
def backupInnerResult (hasDb : Bool) (backupMethod : String)
    (dbOutcome appOutcome : StepOutcome) (archiveOk : Bool) : Bool :=
  match (if hasDb then dbOutcome else .ok true), appOutcome with
  | .exc, _ => false
  | _, .exc => false
  | .ok dbS, .ok appS =>
    let success := dbS && appS
    if success && (hasDb || backupMethod ≠ "none") then success && archiveOk
    else success

/-- service_backup.ServiceBackup.backup: read the quiesce condition, stop
containers when required, run the phases, and in the `finally` block restart
every remembered container; the outer handler converts phase exceptions into
a `False` result after the `finally` has run. -/
def serviceBackupRun (env : BackupEnv) (cfg : ServiceConfig)
    (containers : List SBContainer) (st0 : StatusMap) (failAt : Option Nat)
    (hasDb : Bool) (dbOutcome appOutcome : StepOutcome) (archiveOk : Bool) :
    Bool × StatusMap :=
  let requiresStopping := requiresStoppingEffective cfg env.backupMethod
  let stopRes :=
    if requiresStopping then stopContainersRun env containers st0 failAt
    else (st0, [])
  let result := backupInnerResult hasDb env.backupMethod dbOutcome appOutcome archiveOk
  let finalSt :=
    if stopRes.2 ≠ [] then startContainers stopRes.1 stopRes.2 else stopRes.1
  (result, finalSt)

/-! ## retention_manager.py: mixed retention -/

/-- Zero-padding to two digits, as `%m`, `%d`, `%V` print. -/
def pad2 (n : Nat) : String := if n < 10 then "0" ++ toString n else toString n

/-- Zero-padding to four digits, as `%Y` prints for the years at hand. -/
def pad4 (n : Nat) : String :=
  if n < 10 then "000" ++ toString n
  else if n < 100 then "00" ++ toString n
  else if n < 1000 then "0" ++ toString n
  else toString n

/-- The day bucket key `timestamp.strftime("%Y-%m-%d")`. -/
def dayKeyOf (t : Timestamp) : String :=
  pad4 t.year ++ "-" ++ pad2 t.month ++ "-" ++ pad2 t.day

/-- The week bucket key `f"{timestamp.year}-W{timestamp.strftime('%V')}"`:
the calendar year paired with the ISO week number. -/
def weekKeyOf (t : Timestamp) : String :=
  toString t.year ++ "-W" ++ pad2 (isoYearWeek t.year t.month t.day).2

/-- The month bucket key `timestamp.strftime("%Y-%m")`. -/
def monthKeyOf (t : Timestamp) : String :=
  pad4 t.year ++ "-" ++ pad2 t.month

/-- Modelled from the spec: the claim's week bucket, the ISO year-week pair
(the ISO year can differ from the calendar year around new year). -/
def isoWeekKeyOf (t : Timestamp) : String :=
  let yw := isoYearWeek t.year t.month t.day
  pad4 yw.1 ++ "-W" ++ pad2 yw.2

/-- The backups that enter the bucket grouping: each globbed file paired with
its parsed timestamp, unparseable names skipped. -/
def parsedBackups (files : List String) : List (String × Timestamp) :=
  files.filterMap (fun f => (getBackupTimestamp f).map (fun ts => (f, ts)))

/-- Keys of an insertion-ordered dict built by appending under a membership
guard (the grouping loops of `apply_mixed_retention`). -/
def dictKeysOf (l : List String) : List String :=
  l.foldl (fun acc k => if acc.contains k then acc else acc ++ [k]) []

/-- `sorted(keys, reverse=True)` on strings. -/
def sortStrDesc (l : List String) : List String :=
  l.insertionSort (fun a b => pyStrLe b a = true)

/-- `sorted(bucket, key=timestamp, reverse=True)[0]`: the newest entry of a
bucket (a stable descending sort, then the head). -/
def newestOf (bucket : List (String × Timestamp)) : Option (String × Timestamp) :=
  (bucket.insertionSort (fun p q => tsKey q.2 ≤ tsKey p.2)).head?

/-- One grouping phase of `apply_mixed_retention`: bucket the parsed backups
by `key`, sort the bucket keys descending, and keep the newest entry of each
of the first `count` buckets. -/
def keepFromBuckets (parsed : List (String × Timestamp)) (key : Timestamp → String)
    (count : Nat) : List String :=
  ((sortStrDesc (dictKeysOf (parsed.map (fun p => key p.2)))).take count).filterMap
    (fun k => (newestOf (parsed.filter (fun p => key p.2 == k))).map (fun p => p.1))

/-- The `to_keep` set of `apply_mixed_retention` (a set used through
membership, modelled as the concatenation of the three phases). -/
def mixedToKeep (parsed : List (String × Timestamp)) (daily weekly monthly : Nat) :
    List String :=
  keepFromBuckets parsed dayKeyOf daily ++ keepFromBuckets parsed weekKeyOf weekly
    ++ keepFromBuckets parsed monthKeyOf monthly

/-- retention_manager.RetentionManager.apply_mixed_retention over the globbed
file list of the service: the removal loop deletes every file outside
`to_keep` and outside the active set, returning the removed paths and their
count. -/
def applyMixedRetention (files : List String) (daily weekly monthly : Nat)
    (active : List String) : List String × Nat :=
  let toKeep := mixedToKeep (parsedBackups files) daily weekly monthly
  files.foldl
    (fun acc p =>
      if !toKeep.contains p && !active.contains p then (acc.1 ++ [p], acc.2 + 1)
      else acc)
    ([], 0)

/-- Specification-side predicate: `p` is (one of) the newest entries of its
`key` bucket among the parsed backups. -/
def isNewestInBucket (parsed : List (String × Timestamp)) (key : Timestamp → String)
    (p : String × Timestamp) : Prop :=
  ∀ q ∈ parsed, key q.2 = key p.2 → tsKey q.2 ≤ tsKey p.2

/-- Specification-side predicate: the bucket of `p` is among the `n` most
recent `key` buckets that have backups (fewer than `n` bucket keys are
larger). -/
def isTopBucket (parsed : List (String × Timestamp)) (key : Timestamp → String)
    (n : Nat) (p : String × Timestamp) : Prop :=
  ((dictKeysOf (parsed.map (fun q => key q.2))).filter
    (fun k => pyStrLt (key p.2) k)).length < n

/-- Specification-side restatement of the kept set of the mixed policy: a
file is kept exactly when it parses and is the newest entry of a day, week,
or month bucket that is among the respectively `daily`, `weekly`, `monthly`
most recent ones. -/
def keptBySpec (parsed : List (String × Timestamp)) (daily weekly monthly : Nat)
    (f : String) : Prop :=
  ∃ p ∈ parsed, p.1 = f ∧
    ((isTopBucket parsed dayKeyOf daily p ∧ isNewestInBucket parsed dayKeyOf p)
      ∨ (isTopBucket parsed weekKeyOf weekly p ∧ isNewestInBucket parsed weekKeyOf p)
      ∨ (isTopBucket parsed monthKeyOf monthly p ∧ isNewestInBucket parsed monthKeyOf p))

/-- Modelled from the spec: the claim's kept set with true ISO year-week
buckets in the weekly phase. -/
def keptByClaimISO (parsed : List (String × Timestamp)) (daily weekly monthly : Nat)
    (f : String) : Prop :=
  ∃ p ∈ parsed, p.1 = f ∧
    ((isTopBucket parsed dayKeyOf daily p ∧ isNewestInBucket parsed dayKeyOf p)
      ∨ (isTopBucket parsed isoWeekKeyOf weekly p ∧ isNewestInBucket parsed isoWeekKeyOf p)
      ∨ (isTopBucket parsed monthKeyOf monthly p ∧ isNewestInBucket parsed monthKeyOf p))

instance (parsed : List (String × Timestamp)) (key : Timestamp → String)
    (p : String × Timestamp) : Decidable (isNewestInBucket parsed key p) := by
  unfold isNewestInBucket; infer_instance

instance (parsed : List (String × Timestamp)) (key : Timestamp → String)
    (n : Nat) (p : String × Timestamp) : Decidable (isTopBucket parsed key n p) := by
  unfold isTopBucket; infer_instance

instance (parsed : List (String × Timestamp)) (daily weekly monthly : Nat)
    (f : String) : Decidable (keptBySpec parsed daily weekly monthly f) := by
  unfold keptBySpec; infer_instance

instance (parsed : List (String × Timestamp)) (daily weekly monthly : Nat)
    (f : String) : Decidable (keptByClaimISO parsed daily weekly monthly f) := by
  unfold keptByClaimISO; infer_instance

/-! ## Theorems -/

/-- The stack-prefix loop is the first match in iteration order. -/
theorem stackNameLoop_eq_find (name : String) (l : List String) :
    stackNameLoop name l
      = ((l.find? (fun s => pyStartsWith name (s ++ "_"))).getD name) := by
  induction l with
  | nil => rfl
  | cons s rest ih =>
    by_cases h : pyStartsWith name (s ++ "_")
    · simp [stackNameLoop, List.find?, h]
    · simp [stackNameLoop, List.find?, h, ih]

/-- C7 (corrected): service naming follows the label chain
`com.docker.compose.project`, `io.docker.compose.project`,
`io.portainer.stackname`, then the FIRST stack (in registry iteration order)
whose name followed by an underscore prefixes the container name — not the
longest such stack — and finally the container name itself. -/
theorem c7_service_name_first_match (c : DiscContainer) (stackList : List String) :
    getServiceName c stackList = specServiceName c stackList := by
  unfold getServiceName specServiceName
  rw [stackNameLoop_eq_find]

/-- C7 counterexample: with stacks iterated as `["app", "app_db"]` and a
container named `app_db_x` without labels, the code returns `app`, while the
longest matching stack-name prefix is `app_db`. -/
theorem c7_longest_prefix_counterexample :
    getServiceName ⟨true, [], "app_db_x"⟩ ["app", "app_db"] = "app"
      ∧ longestStackPfx "app_db_x" ["app", "app_db"] = some "app_db"
      ∧ ("app" : String) ≠ "app_db" := by
  refine ⟨by decide, by decide, by decide⟩

/-- C10 (confirmed): exec_in_container always returns a pair; an invalid
container object or an empty/non-string command yields `(-1, message)`
independently of the runtime behaviour (the runtime is never invoked), and a
runtime exception is converted to `(-1, str(e))`. -/
theorem c10_exec_in_container_total (container : Option PyContainerView)
    (command : PyCommand) (env : List (String × String)) (rt : ExecRunBehavior) :
    (isValidContainer container = false →
      exec_in_container container command env rt = (-1, "Invalid container object")
        ∧ ∀ rt', exec_in_container container command env rt
            = exec_in_container container command env rt')
    ∧ (isValidContainer container = true → command = .nonStr →
      exec_in_container container command env rt = (-1, "Invalid command")
        ∧ ∀ rt', exec_in_container container command env rt
            = exec_in_container container command env rt')
    ∧ (∀ s, isValidContainer container = true → command = .str s → pyStrip s = "" →
      exec_in_container container command env rt = (-1, "Invalid command")
        ∧ ∀ rt', exec_in_container container command env rt
            = exec_in_container container command env rt')
    ∧ (∀ s msg, isValidContainer container = true → command = .str s → pyStrip s ≠ "" →
      rt = .raises msg →
      exec_in_container container command env rt = (-1, msg))
    ∧ (∀ s code out, isValidContainer container = true → command = .str s →
      pyStrip s ≠ "" → rt = .returns code out →
      exec_in_container container command env rt = (code, out)) := by
  refine ⟨?_, ?_, ?_, ?_, ?_⟩
  · intro h
    constructor
    · simp [exec_in_container, h]
    · intro rt'; simp [exec_in_container, h]
  · intro h hc
    subst hc
    constructor
    · simp [exec_in_container, h]
    · intro rt'; simp [exec_in_container, h]
  · intro s h hc hs
    subst hc
    constructor
    · simp [exec_in_container, h, hs]
    · intro rt'; simp [exec_in_container, h, hs]
  · intro s msg h hc hs hr
    subst hc; subst hr
    simp [exec_in_container, h, hs]
  · intro s code out h hc hs hr
    subst hc; subst hr
    simp [exec_in_container, h, hs]

/-- C10 witness: the five behaviours at concrete inputs. -/
theorem c10_exec_in_container_witness :
    exec_in_container none (.str "ls") [] (.returns 0 "ok")
        = (-1, "Invalid container object")
      ∧ exec_in_container (some ⟨true, true, true, true⟩) .nonStr [] (.returns 0 "ok")
        = (-1, "Invalid command")
      ∧ exec_in_container (some ⟨true, true, true, true⟩) (.str "   ") [] (.returns 0 "ok")
        = (-1, "Invalid command")
      ∧ exec_in_container (some ⟨true, true, true, true⟩) (.str "ls") [] (.raises "boom")
        = (-1, "boom")
      ∧ exec_in_container (some ⟨true, true, true, true⟩) (.str "ls") [] (.returns 3 "out")
        = (3, "out") := by
  refine ⟨((c10_exec_in_container_total none (.str "ls") [] (.returns 0 "ok")).1
      (by decide)).1,
    ((c10_exec_in_container_total (some ⟨true, true, true, true⟩) .nonStr []
      (.returns 0 "ok")).2.1 (by decide) rfl).1,
    ((c10_exec_in_container_total (some ⟨true, true, true, true⟩) (.str "   ") []
      (.returns 0 "ok")).2.2.1 "   " (by decide) rfl (by decide)).1,
    (c10_exec_in_container_total (some ⟨true, true, true, true⟩) (.str "ls") []
      (.raises "boom")).2.2.2.1 "ls" "boom" (by decide) rfl (by decide) rfl,
    (c10_exec_in_container_total (some ⟨true, true, true, true⟩) (.str "ls") []
      (.returns 3 "out")).2.2.2.2 "ls" 3 "out" (by decide) rfl (by decide) rfl⟩

/-- C2 (code bug): with the effective default configuration, the quiesce
condition read by `ServiceBackup.backup` is False under the default `mounts`
method even though both `database.requires_stopping` and
`files.requires_stopping` are True: the code reads a top-level
`requires_stopping` key that the configuration schema never sets. -/
theorem c2_quiesce_entry_code_bug :
    requiresStoppingEffective defaultServiceConfig "mounts" = false
      ∧ defaultServiceConfig.database.requires_stopping = true
      ∧ defaultServiceConfig.files.requires_stopping = true := by
  refine ⟨rfl, rfl, rfl⟩

/-- C4 (corrected): acquisition on contention is refused exactly when the
record parses, is at most 3 hours old, and names a positive pid that is alive
and belongs to a DIFFERENT process; a lock naming the current process's own
pid is treated as stale and replaced. -/
theorem c4_lock_contention_characterization (parsed : Option LockRecord)
    (now selfPid : Int) (alive : Int → Bool) :
    lockContentionDecision parsed now selfPid alive = .refuse ↔
      ∃ r, parsed = some r ∧ now - r.timestamp ≤ 3 * 3600 ∧ 0 < r.pid
        ∧ r.pid ≠ selfPid ∧ alive r.pid = true := by
  cases parsed with
  | none => simp [lockContentionDecision]
  | some r =>
    simp only [lockContentionDecision, Option.some.injEq]
    have hexr : (∃ r1, r = r1 ∧ now - r1.timestamp ≤ 3 * 3600 ∧ 0 < r1.pid
          ∧ r1.pid ≠ selfPid ∧ alive r1.pid = true)
        ↔ (now - r.timestamp ≤ 3 * 3600 ∧ 0 < r.pid ∧ r.pid ≠ selfPid
          ∧ alive r.pid = true) := by
      constructor
      · rintro ⟨r1, rfl, h⟩; exact h
      · intro h; exact ⟨r, rfl, h⟩
    rw [hexr]
    generalize hprg : (if 0 < r.pid then
        (if r.pid ≠ selfPid then alive r.pid else false) else false) = pr
    constructor
    · intro h
      by_cases hc : (decide (now - r.timestamp > 3 * 3600) || !pr) = true
      · rw [if_pos hc] at h
        cases h
      · have hc' : (decide (now - r.timestamp > 3 * 3600) || !pr) = false :=
          Bool.eq_false_iff.mpr hc
        have ht : decide (now - r.timestamp > 3 * 3600) = false ∧ (!pr) = false :=
          Bool.or_eq_false_iff.mp hc'
        have hage : ¬(now - r.timestamp > 3 * 3600) := of_decide_eq_false ht.1
        have hprt : pr = true := by
          have := ht.2
          cases hb : pr
          · rw [hb] at this; cases this
          · rfl
        rw [← hprg] at hprt
        by_cases h1 : (0 : Int) < r.pid
        · rw [if_pos h1] at hprt
          by_cases h2 : r.pid ≠ selfPid
          · rw [if_pos h2] at hprt
            exact ⟨by omega, h1, h2, hprt⟩
          · rw [if_neg h2] at hprt
            cases hprt
        · rw [if_neg h1] at hprt
          cases hprt
    · rintro ⟨hage, hpid, hne, halive⟩
      have hprt : pr = true := by
        rw [← hprg, if_pos hpid, if_pos hne]; exact halive
      have hc : (decide (now - r.timestamp > 3 * 3600) || !pr) = false := by
        rw [hprt]
        simp only [Bool.not_true, Bool.or_false, decide_eq_false_iff_not]
        omega
      rw [if_neg (by rw [hc]; exact Bool.false_ne_true)]

/-- C4 counterexample: a fresh, well-formed lock whose pid is the current
process's own (alive) pid is replaced, where the claim requires refusal. -/
theorem c4_own_pid_counterexample :
    lockContentionDecision (some ⟨5000, 42⟩) 5000 42 (fun p => decide (p = 42))
        = .replace
      ∧ (fun p : Int => decide (p = 42)) 42 = true
      ∧ (5000 : Int) - 5000 ≤ 3 * 3600 := by
  refine ⟨by decide, by decide, by decide⟩

/-- Successes contributed by an all-successful result list. -/
theorem filter_map_true_length (l : List String) :
    ((l.map (fun n => (n, true))).filter (fun r : String × Bool => r.2)).length
      = l.length := by
  induction l with
  | nil => rfl
  | cons a t ih => simpa [List.filter] using ih

/-- C5 (corrected): a refused lock makes `_run_backup_with_lock` return
False; with every other requested service succeeding, that False makes the
success count fall short and the backup CLI exits 1 (not 0). -/
theorem c5_lock_refusal_fails_run (others : List String) (service : String)
    (outcome : BackupOutcome) :
    runBackupWithLock false false .refused outcome = false
      ∧ backupCliExitCode (others.map (fun n => (n, true))
          ++ [(service, runBackupWithLock false false .refused outcome)]) = 1 := by
  constructor
  · rfl
  · unfold backupCliExitCode
    have hrun : runBackupWithLock false false .refused outcome = false := rfl
    rw [hrun]
    rw [List.filter_append, List.length_append, filter_map_true_length]
    simp [List.filter]

/-- C5 counterexample: a single service whose lock is held is recorded as
failed and the CLI exits 1, where the claim requires a skip and exit 0. -/
theorem c5_lock_refusal_counterexample :
    runBackupWithLock false false .refused (.ok true) = false
      ∧ backupCliExitCode [("foo", runBackupWithLock false false .refused (.ok true))]
        = 1 := by
  refine ⟨rfl, rfl⟩

/-- Once the `any_resolved` flag is set it stays set for the rest of the
pass. -/
theorem sweepGo_flag_monotone (ks : List String) (acc : EnvMap × Bool)
    (h : acc.2 = true) : (sweepGo ks acc).2 = true := by
  induction ks generalizing acc with
  | nil => simpa [sweepGo]
  | cons k rest ih =>
    unfold sweepGo
    cases hl : dictLookup acc.1 k with
    | none => exact ih acc h
    | some v =>
      simp only []
      by_cases hne : resolveEnvVar v acc.1 ≠ v
      · rw [if_pos hne]
        exact ih (dictUpdate acc.1 k (resolveEnvVar v acc.1), true) rfl
      · rw [if_neg hne]
        exact ih acc h

/-- A pass that reports no resolution leaves the map unchanged. -/
theorem sweepGo_no_change (ks : List String) (m : EnvMap)
    (h : (sweepGo ks (m, false)).2 = false) : sweepGo ks (m, false) = (m, false) := by
  induction ks generalizing m with
  | nil => rfl
  | cons k rest ih =>
    unfold sweepGo at h ⊢
    cases hl : dictLookup m k with
    | none =>
      simp only [hl] at h ⊢
      exact ih m h
    | some v =>
      simp only [hl] at h ⊢
      by_cases hne : resolveEnvVar v m ≠ v
      · rw [if_pos hne] at h
        have hmono := sweepGo_flag_monotone rest
          (dictUpdate m k (resolveEnvVar v m), true) rfl
        rw [hmono] at h
        cases h
      · rw [if_neg hne] at h ⊢
        exact ih m h

/-- C8 (corrected): applying the reference resolution twice equals applying
it once whenever one application reaches a substitution fixpoint, i.e. a
further pass over its result resolves nothing. (A chain of more than about
seven nested references exhausts the three passes and falsifies the
unconditional claim.) -/
theorem c8_resolution_idempotent_at_fixpoint (m : EnvMap)
    (h : (sweepEnv (resolveEnvVarReferences m)).2 = false) :
    resolveEnvVarReferences (resolveEnvVarReferences m) = resolveEnvVarReferences m := by
  generalize hr : resolveEnvVarReferences m = r at h ⊢
  by_cases he : r.isEmpty
  · rw [List.isEmpty_iff] at he
    subst he
    rfl
  · have hfix : sweepEnv r = (r, false) := by
      unfold sweepEnv at h ⊢
      exact sweepGo_no_change _ _ h
    unfold resolveEnvVarReferences
    rw [if_neg (by simpa using he)]
    rw [hfix]
    simp

/-- C8 witness: a one-step reference map is resolved to a fixpoint, so the
second application changes nothing. -/
theorem c8_resolution_idempotent_witness :
    (sweepEnv (resolveEnvVarReferences [("A", "$B"), ("B", "x")])).2 = false
      ∧ resolveEnvVarReferences (resolveEnvVarReferences [("A", "$B"), ("B", "x")])
        = resolveEnvVarReferences [("A", "$B"), ("B", "x")] := by
  refine ⟨by decide, c8_resolution_idempotent_at_fixpoint _ (by decide)⟩

/-- C8 counterexample: a chain of eight nested references is not fully
resolved by the three passes of one application, and a second application
resolves further — resolution is not idempotent on every map. -/
theorem c8_resolution_not_idempotent :
    resolveEnvVarReferences (resolveEnvVarReferences
        [("A", "$B"), ("B", "$C"), ("C", "$D"), ("D", "$E"), ("E", "$F"),
         ("F", "$G"), ("G", "$H"), ("H", "$I"), ("I", "x")])
      ≠ resolveEnvVarReferences
        [("A", "$B"), ("B", "$C"), ("C", "$D"), ("D", "$E"), ("E", "$F"),
         ("F", "$G"), ("G", "$H"), ("H", "$I"), ("I", "x")] := by
  decide

/-- An empty string contains none of the blacklisted fragments. -/
theorem containsAnyOf_empty_full : containsAnyOf "" dangerousCharsFull = false := by
  decide

/-- An empty string contains none of the reduced blacklist's fragments. -/
theorem containsAnyOf_empty_nodollar :
    containsAnyOf "" dangerousCharsNoDollar = false := by
  decide

/-- C9 (corrected): the string parameters of postgres and mysql dumps are
validated inline against the full blacklist `; && || `(backtick) $ | > <`
before the command is built, and a violation fails the dump before any
container execution; the mongodb and redis dumps validate through
`_validate_credential`, whose blacklist OMITS the dollar sign, and a
violation of that reduced blacklist likewise fails the dump early. -/
theorem c9_injection_validation (cr : Credentials) :
    ((containsAnyOf (cr.user.getD "") dangerousCharsFull
        || containsAnyOf (cr.database.getD "") dangerousCharsFull
        || containsAnyOf (cr.host.getD "") dangerousCharsFull) = true →
      (backupPostgresCommand cr).failedEarly = true)
    ∧ ((containsAnyOf (cr.user.getD "") dangerousCharsFull
        || containsAnyOf (cr.database.getD "") dangerousCharsFull
        || containsAnyOf (cr.host.getD "") dangerousCharsFull) = true →
      (backupMysqlCommand cr).failedEarly = true)
    ∧ (∀ s, (cr.user = some s ∨ cr.password = some s ∨ cr.host = some s
        ∨ cr.database = some s ∨ cr.authSource = some s) → s ≠ "" →
      containsAnyOf s dangerousCharsNoDollar = true →
      (backupMongodbCommand cr).failedEarly = true)
    ∧ (∀ s, (cr.password = some s ∨ cr.host = some s) → s ≠ "" →
      containsAnyOf s dangerousCharsNoDollar = true →
      (backupRedisCliCommand cr).failedEarly = true) := by
  refine ⟨?_, ?_, ?_, ?_⟩
  · intro h
    rw [Bool.or_eq_true, Bool.or_eq_true] at h
    by_contra hfalse
    have hok : (backupPostgresCommand cr).failedEarly = false :=
      Bool.eq_false_iff.mpr hfalse
    simp only [backupPostgresCommand] at hok
    split_ifs at hok <;> simp_all [DumpPlan.failedEarly]
  · intro h
    rw [Bool.or_eq_true, Bool.or_eq_true] at h
    by_contra hfalse
    have hok : (backupMysqlCommand cr).failedEarly = false :=
      Bool.eq_false_iff.mpr hfalse
    have hne : ∀ t : String, containsAnyOf t dangerousCharsFull = true → ¬(t = "") := by
      intro t ht ht'
      rw [ht', containsAnyOf_empty_full] at ht
      cases ht
    have hlocal : containsAnyOf "localhost" dangerousCharsFull = false := by decide
    simp only [backupMysqlCommand] at hok
    rcases h with (h | h) | h <;>
      · have h' := hne _ h
        split_ifs at hok <;> simp_all [DumpPlan.failedEarly]
  · intro s hfield hne hcon
    have hval : validateCredList
        [("user", cr.user.map PyVal.str), ("password", cr.password.map PyVal.str),
         ("host", cr.host.map PyVal.str), ("port", cr.port),
         ("database", cr.database.map PyVal.str),
         ("authSource", cr.authSource.map PyVal.str)] = false := by
      rcases hfield with h | h | h | h | h <;>
        simp_all [validateCredList, validateCredential, PyVal.truthy, List.all]
    simp only [backupMongodbCommand]
    rw [hval]
    rfl
  · intro s hfield hne hcon
    have hval : validateCredList
        [("password", cr.password.map PyVal.str), ("host", cr.host.map PyVal.str),
         ("port", cr.port)] = false := by
      rcases hfield with h | h <;>
        simp_all [validateCredList, validateCredential, PyVal.truthy, List.all]
    simp only [backupRedisCliCommand]
    rw [hval]
    rfl

/-- C9 witness: each flavor rejects a concrete blacklisted parameter before
execution. -/
theorem c9_injection_validation_witness :
    (backupPostgresCommand { user := some "a;b", database := some "d" }).failedEarly = true
      ∧ (backupMysqlCommand { user := some "u", database := some "d<e" }).failedEarly = true
      ∧ (backupMongodbCommand { user := some "a|b" }).failedEarly = true
      ∧ (backupRedisCliCommand { host := some "h>i" }).failedEarly = true := by
  refine ⟨(c9_injection_validation _).1 (by decide),
    (c9_injection_validation _).2.1 (by decide),
    (c9_injection_validation _).2.2.1 "a|b" (Or.inl rfl) (by decide) (by decide),
    (c9_injection_validation _).2.2.2 "h>i" (Or.inr rfl) (by decide) (by decide)⟩

/-- C9 counterexample: `_validate_credential` accepts a dollar sign, so a
mongodb dump with user `a$b` builds and executes a command containing the
blacklisted `$`, where the claim requires an immediate failure. -/
theorem c9_dollar_passes_mongodb :
    validateCredential "user" (.str "a$b") = true
      ∧ backupMongodbCommand { user := some "a$b", password := some "p" }
        = .ok ("mongodump --out=/tmp/mongodb_backup MONGO_PASSWORD=\"$MONGO_PASSWORD\" --username=a$b",
               [("MONGO_PASSWORD", "p")])
      ∧ strContains "a$b" "$" = true := by
  refine ⟨by decide, rfl, by decide⟩

/-- C3 (code bug): a live lock placed by the backup manager at
`locks/svc.lock`, whose `backup_name` names an existing archive, is invisible
to `_get_active_backups` (which only globs `*.lock` directly under the backup
directory and reads raw content instead of the JSON field), so the retention
pass removes the locked archive. -/
theorem c3_retention_deletes_locked_archive :
    getActiveBackups
        [lockFileFor "svc" "svc_20250101_000000.tar.gz" 1735700000 4242 "host1",
         ⟨"svc_20250101_000000.tar.gz", "archive-bytes"⟩] = []
      ∧ strContains
          (lockFileFor "svc" "svc_20250101_000000.tar.gz" 1735700000 4242 "host1").content
          "svc_20250101_000000.tar.gz" = true
      ∧ applyTimeBasedRetention
          [lockFileFor "svc" "svc_20250101_000000.tar.gz" 1735700000 4242 "host1",
           ⟨"svc_20250101_000000.tar.gz", "archive-bytes"⟩]
          "svc" 7 ⟨2025, 6, 15, 12, 0, 0⟩
          (getActiveBackups
            [lockFileFor "svc" "svc_20250101_000000.tar.gz" 1735700000 4242 "host1",
             ⟨"svc_20250101_000000.tar.gz", "archive-bytes"⟩])
        = (["svc_20250101_000000.tar.gz"], 1) := by
  refine ⟨by decide, by decide, by decide⟩

/-- One unfolding of the stop loop when no exception hits this iteration. -/
theorem stopLoop_cons (env : BackupEnv) (c : SBContainer) (rest : List SBContainer)
    (failAt : Option Nat) (st : StatusMap) (acc : List SBContainer)
    (hf : ¬failAt = some 0) :
    stopLoop env (c :: rest) failAt st acc =
      (if isCurrentContainer env c then
        stopLoop env rest (failAt.map (fun n => n - 1)) st acc
      else if checkHotBackupSupport c then
        stopLoop env rest (failAt.map (fun n => n - 1)) st acc
      else if c.hasStatus && st c.id == "running" then
        (if c.hasName then
          stopLoop env rest (failAt.map (fun n => n - 1))
            (statusUpdate st c.id "exited") (acc ++ [c])
        else (st, acc, true))
      else stopLoop env rest (failAt.map (fun n => n - 1)) st acc) := by
  conv_lhs => unfold stopLoop
  rw [if_neg hf]

/-- The invariants of the stop loop: every recorded container was running
(and named) when the loop saw it, no container starts running during the
loop, and every container running at entry is either still running or
recorded for restart. -/
theorem stopLoop_spec (env : BackupEnv) (l : List SBContainer) (failAt : Option Nat)
    (st : StatusMap) (acc : List SBContainer) :
    (∀ c ∈ (stopLoop env l failAt st acc).2.1, c ∈ acc ∨ st c.id = "running")
    ∧ (∀ c ∈ acc, c ∈ (stopLoop env l failAt st acc).2.1)
    ∧ (∀ c ∈ (stopLoop env l failAt st acc).2.1, c ∈ acc ∨ c.hasName = true)
    ∧ (∀ id, (stopLoop env l failAt st acc).1 id = "running" → st id = "running")
    ∧ (∀ id, st id = "running" →
        (stopLoop env l failAt st acc).1 id = "running"
          ∨ ∃ c ∈ (stopLoop env l failAt st acc).2.1, c.id = id) := by
  induction l generalizing failAt st acc with
  | nil =>
    refine ⟨fun c hc => Or.inl hc, fun c hc => hc, fun c hc => Or.inl hc,
      fun id h => h, fun id h => Or.inl h⟩
  | cons c rest ih =>
    by_cases hf : failAt = some 0
    · have hstep : stopLoop env (c :: rest) failAt st acc = (st, acc, true) := by
        unfold stopLoop
        rw [if_pos hf]
      rw [hstep]
      refine ⟨fun x hx => Or.inl hx, fun x hx => hx, fun x hx => Or.inl hx,
        fun id h => h, fun id h => Or.inl h⟩
    · rw [stopLoop_cons env c rest failAt st acc hf]
      by_cases h1 : isCurrentContainer env c
      · rw [if_pos h1]; exact ih _ _ _
      · rw [if_neg h1]
        by_cases h2 : checkHotBackupSupport c
        · rw [if_pos h2]; exact ih _ _ _
        · rw [if_neg h2]
          by_cases h3 : (c.hasStatus && st c.id == "running") = true
          · rw [if_pos h3]
            have hrun : st c.id = "running" := by
              have := (Bool.and_eq_true _ _).mp h3
              exact eq_of_beq this.2
            by_cases h4 : c.hasName = true
            · rw [if_pos h4]
              obtain ⟨i1, i2, i3, i4, i5⟩ :=
                ih (failAt.map (fun n => n - 1))
                  (statusUpdate st c.id "exited") (acc ++ [c])
              refine ⟨?_, ?_, ?_, ?_, ?_⟩
              · intro x hx
                rcases i1 x hx with hmem | hrun'
                · rcases List.mem_append.mp hmem with hmem | hmem
                  · exact Or.inl hmem
                  · rcases List.mem_singleton.mp hmem with rfl
                    exact Or.inr hrun
                · unfold statusUpdate at hrun'
                  by_cases hxid : x.id = c.id
                  · rw [if_pos hxid] at hrun'
                    exact absurd hrun' (by decide)
                  · rw [if_neg hxid] at hrun'; exact Or.inr hrun'
              · intro x hx
                exact i2 x (List.mem_append.mpr (Or.inl hx))
              · intro x hx
                rcases i3 x hx with hmem | hn
                · rcases List.mem_append.mp hmem with hmem | hmem
                  · exact Or.inl hmem
                  · rcases List.mem_singleton.mp hmem with rfl
                    exact Or.inr h4
                · exact Or.inr hn
              · intro id h
                have := i4 id h
                unfold statusUpdate at this
                by_cases hid : id = c.id
                · rw [if_pos hid] at this
                  exact absurd this (by decide)
                · rw [if_neg hid] at this; exact this
              · intro id h
                by_cases hid : id = c.id
                · subst hid
                  exact Or.inr ⟨c, i2 c (List.mem_append.mpr
                    (Or.inr (List.mem_singleton.mpr rfl))), rfl⟩
                · have hst' : statusUpdate st c.id "exited" id = "running" := by
                    unfold statusUpdate
                    rw [if_neg hid]
                    exact h
                  exact i5 id hst'
            · rw [if_neg h4]
              refine ⟨fun x hx => Or.inl hx, fun x hx => hx, fun x hx => Or.inl hx,
                fun id h => h, fun id h => Or.inl h⟩
          · rw [if_neg h3]; exact ih _ _ _

/-- The restart loop sets exactly the named recorded containers to running
and leaves everything else alone. -/
theorem startContainers_running (st : StatusMap) (cs : List SBContainer) (id : String) :
    startContainers st cs id = "running" ↔
      (st id = "running" ∨ ∃ c ∈ cs, c.hasName = true ∧ c.id = id) := by
  induction cs generalizing st with
  | nil => simp [startContainers]
  | cons c rest ih =>
    show startContainers (if c.hasName then statusUpdate st c.id "running" else st)
        rest id = "running" ↔ _
    rw [ih]
    by_cases hn : c.hasName = true
    · rw [if_pos hn]
      unfold statusUpdate
      by_cases hid : id = c.id
      · rw [if_pos hid]
        simp only [List.mem_cons]
        constructor
        · intro _
          exact Or.inr ⟨c, by simp, hn, hid.symm⟩
        · intro _; exact Or.inl trivial
      · rw [if_neg hid]
        simp only [List.mem_cons]
        constructor
        · rintro (h | ⟨x, hx, hxn, hxid⟩)
          · exact Or.inl h
          · exact Or.inr ⟨x, Or.inr hx, hxn, hxid⟩
        · rintro (h | ⟨x, hx | hx, hxn, hxid⟩)
          · exact Or.inl h
          · subst hx
            exact absurd hxid.symm hid
          · exact Or.inr ⟨x, hx, hxn, hxid⟩
    · rw [if_neg hn]
      simp only [List.mem_cons]
      constructor
      · rintro (h | ⟨x, hx, hxn, hxid⟩)
        · exact Or.inl h
        · exact Or.inr ⟨x, Or.inr hx, hxn, hxid⟩
      · rintro (h | ⟨x, hx | hx, hxn, hxid⟩)
        · exact Or.inl h
        · subst hx
          exact absurd hxn hn
        · exact Or.inr ⟨x, hx, hxn, hxid⟩

/-- The stop phase followed by the restart of the recorded containers leaves
the running set unchanged, on the normal and on the exception path. -/
theorem stopThenStart_preserves (env : BackupEnv) (containers : List SBContainer)
    (st : StatusMap) (failAt : Option Nat) (id : String) :
    (let r := stopContainersRun env containers st failAt
     (if r.2 ≠ [] then startContainers r.1 r.2 else r.1) id) = "running"
      ↔ st id = "running" := by
  obtain ⟨i1, i2, i3, i4, i5⟩ :=
    stopLoop_spec env containers.reverse failAt st []
  have i1' : ∀ c ∈ (stopLoop env containers.reverse failAt st []).2.1,
      st c.id = "running" := by
    intro c hc
    rcases i1 c hc with h | h
    · cases h
    · exact h
  have i3' : ∀ c ∈ (stopLoop env containers.reverse failAt st []).2.1,
      c.hasName = true := by
    intro c hc
    rcases i3 c hc with h | h
    · cases h
    · exact h
  simp only [stopContainersRun]
  by_cases hr : (stopLoop env containers.reverse failAt st []).2.2 = true
  · rw [if_pos hr]
    rw [if_neg (fun h => h rfl)]
    show startContainers (stopLoop env containers.reverse failAt st []).1
        (stopLoop env containers.reverse failAt st []).2.1 id = "running" ↔ _
    rw [startContainers_running]
    constructor
    · rintro (h | ⟨c, hc, _, rfl⟩)
      · exact i4 id h
      · exact i1' c hc
    · intro h
      rcases i5 id h with h' | ⟨c, hc, hcid⟩
      · exact Or.inl h'
      · exact Or.inr ⟨c, hc, i3' c hc, hcid⟩
  · rw [if_neg hr]
    by_cases hs : (stopLoop env containers.reverse failAt st []).2.1 = []
    · rw [if_neg (fun h => h hs)]
      constructor
      · exact i4 id
      · intro h
        rcases i5 id h with h' | ⟨c, hc, _⟩
        · exact h'
        · rw [hs] at hc
          cases hc
    · rw [if_pos hs]
      show startContainers (stopLoop env containers.reverse failAt st []).1
          (stopLoop env containers.reverse failAt st []).2.1 id = "running" ↔ _
      rw [startContainers_running]
      constructor
      · rintro (h | ⟨c, hc, _, rfl⟩)
        · exact i4 id h
        · exact i1' c hc
      · intro h
        rcases i5 id h with h' | ⟨c, hc, hcid⟩
        · exact Or.inl h'
        · exact Or.inr ⟨c, hc, i3' c hc, hcid⟩

/-- C1 (confirmed): the per-service pipeline leaves the set of running
containers unchanged on every path — every container it stopped is restarted
before it returns, whether the phases succeed, fail, or raise, and whether or
not the stop loop itself is interrupted by an exception. -/
theorem c1_running_set_preserved (env : BackupEnv) (cfg : ServiceConfig)
    (containers : List SBContainer) (st0 : StatusMap) (failAt : Option Nat)
    (hasDb : Bool) (dbOutcome appOutcome : StepOutcome) (archiveOk : Bool)
    (id : String) :
    (serviceBackupRun env cfg containers st0 failAt hasDb dbOutcome appOutcome
        archiveOk).2 id = "running"
      ↔ st0 id = "running" := by
  unfold serviceBackupRun
  by_cases hreq : requiresStoppingEffective cfg env.backupMethod = true
  · simp only [hreq, if_true]
    exact stopThenStart_preserves env containers st0 failAt id
  · simp [hreq]

/-- Lexicographic comparison is irreflexive. -/
theorem charListLt_irrefl (l : List Char) : charListLt l l = false := by
  induction l with
  | nil => rfl
  | cons a t ih =>
    unfold charListLt
    rw [if_neg (lt_irrefl a), if_neg (lt_irrefl a)]
    exact ih

/-- Lexicographic comparison is asymmetric. -/
theorem charListLt_asymm : ∀ {xs ys : List Char},
    charListLt xs ys = true → charListLt ys xs = false := by
  intro xs
  induction xs with
  | nil =>
    intro ys h
    cases ys with
    | nil => cases h
    | cons y t => rfl
  | cons x xs' ih =>
    intro ys h
    cases ys with
    | nil => cases h
    | cons y ys' =>
      unfold charListLt at h ⊢
      by_cases hxy : x < y
      · rw [if_neg (asymm hxy), if_pos hxy]
      · rw [if_neg hxy] at h
        by_cases hyx : y < x
        · rw [if_pos hyx] at h
          cases h
        · rw [if_neg hyx] at h
          rw [if_neg hyx, if_neg hxy]
          exact ih h

/-- Lexicographic comparison is transitive. -/
theorem charListLt_trans : ∀ {xs ys zs : List Char},
    charListLt xs ys = true → charListLt ys zs = true → charListLt xs zs = true := by
  intro xs
  induction xs with
  | nil =>
    intro ys zs h1 h2
    cases ys with
    | nil => cases h1
    | cons y ys' =>
      cases zs with
      | nil => cases h2
      | cons z zs' => rfl
  | cons x xs' ih =>
    intro ys zs h1 h2
    cases ys with
    | nil => cases h1
    | cons y ys' =>
      cases zs with
      | nil => cases h2
      | cons z zs' =>
        unfold charListLt at h1 h2 ⊢
        rcases lt_trichotomy x y with hxy | rfl | hxy
        · rcases lt_trichotomy y z with hyz | rfl | hyz
          · rw [if_pos (lt_trans hxy hyz)]
          · rw [if_pos hxy]
          · rw [if_neg (asymm hyz), if_pos hyz] at h2
            cases h2
        · rw [if_neg (lt_irrefl x), if_neg (lt_irrefl x)] at h1
          rcases lt_trichotomy x z with hxz | rfl | hxz
          · rw [if_pos hxz]
          · rw [if_neg (lt_irrefl x), if_neg (lt_irrefl x)] at h2 ⊢
            exact ih h1 h2
          · rw [if_neg (asymm hxz), if_pos hxz] at h2
            cases h2
        · rw [if_neg (asymm hxy), if_pos hxy] at h1
          cases h1

/-- Lexicographic trichotomy for distinct lists. -/
theorem charListLt_connex : ∀ {xs ys : List Char}, xs ≠ ys →
    charListLt xs ys = true ∨ charListLt ys xs = true := by
  intro xs
  induction xs with
  | nil =>
    intro ys h
    cases ys with
    | nil => exact absurd rfl h
    | cons y t => exact Or.inl rfl
  | cons x xs' ih =>
    intro ys h
    cases ys with
    | nil => exact Or.inr rfl
    | cons y ys' =>
      rcases lt_trichotomy x y with hxy | rfl | hxy
      · left
        unfold charListLt
        rw [if_pos hxy]
      · have h' : xs' ≠ ys' := fun hh => h (by rw [hh])
        unfold charListLt
        rw [if_neg (lt_irrefl x), if_neg (lt_irrefl x),
          if_neg (lt_irrefl x), if_neg (lt_irrefl x)]
        exact ih h'
      · right
        unfold charListLt
        rw [if_pos hxy]

/-- Two strings with the same character data are equal. -/
theorem string_data_inj {a b : String} (h : a.data = b.data) : a = b :=
  String.ext h

/-- The descending string relation used by the key sort is total. -/
theorem descStr_total (a b : String) :
    pyStrLe b a = true ∨ pyStrLe a b = true := by
  unfold pyStrLe
  by_cases h : charListLt a.data b.data = true
  · right
    rw [charListLt_asymm h]
    rfl
  · left
    rw [Bool.eq_false_iff.mpr h]
    rfl

/-- The descending string relation used by the key sort is transitive. -/
theorem descStr_trans (a b c : String) (h1 : pyStrLe b a = true)
    (h2 : pyStrLe c b = true) : pyStrLe c a = true := by
  unfold pyStrLe at h1 h2 ⊢
  by_cases hac : charListLt a.data c.data = true
  · by_cases hab : charListLt a.data b.data = true
    · rw [hab] at h1
      cases h1
    · by_cases hba : charListLt b.data a.data = true
      · have := charListLt_trans hba hac
        rw [this] at h2
        cases h2
      · have hdata : a.data = b.data := by
          by_contra hne
          rcases charListLt_connex hne with h | h
          · exact hab (by rw [h])
          · exact hba (by rw [h])
        rw [← hdata] at h2
        rw [hac] at h2
        cases h2
  · rw [Bool.eq_false_iff.mpr hac]
    rfl

/-- Membership in an insertion-ordered key accumulation. -/
theorem dictKeysOf_foldl_mem (l : List String) (acc : List String) (k : String) :
    k ∈ l.foldl (fun acc k => if acc.contains k then acc else acc ++ [k]) acc ↔
      k ∈ acc ∨ k ∈ l := by
  induction l generalizing acc with
  | nil => simp
  | cons x t ih =>
    show k ∈ t.foldl _ (if acc.contains x then acc else acc ++ [x]) ↔ _
    rw [ih]
    by_cases hc : acc.contains x
    · rw [if_pos hc]
      have hx : x ∈ acc := List.elem_iff.mp hc
      simp only [List.mem_cons]
      constructor
      · rintro (h | h)
        · exact Or.inl h
        · exact Or.inr (Or.inr h)
      · rintro (h | h | h)
        · exact Or.inl h
        · exact Or.inl (h ▸ hx)
        · exact Or.inr h
    · rw [if_neg hc]
      simp only [List.mem_append, List.mem_cons, List.not_mem_nil, or_false]
      constructor
      · rintro ((h | h) | h)
        · exact Or.inl h
        · exact Or.inr (Or.inl h)
        · exact Or.inr (Or.inr h)
      · rintro (h | h | h)
        · exact Or.inl (Or.inl h)
        · exact Or.inl (Or.inr h)
        · exact Or.inr h

/-- The collected bucket keys are exactly the keys that occur. -/
theorem dictKeysOf_mem (l : List String) (k : String) :
    k ∈ dictKeysOf l ↔ k ∈ l := by
  unfold dictKeysOf
  rw [dictKeysOf_foldl_mem]
  simp

/-- The collected bucket keys are distinct. -/
theorem dictKeysOf_nodup (l : List String) : (dictKeysOf l).Nodup := by
  have main : ∀ (l acc : List String), acc.Nodup →
      (l.foldl (fun acc k => if acc.contains k then acc else acc ++ [k]) acc).Nodup := by
    intro l
    induction l with
    | nil => intro acc h; exact h
    | cons x t ih =>
      intro acc h
      show (t.foldl _ (if acc.contains x then acc else acc ++ [x])).Nodup
      by_cases hc : acc.contains x
      · rw [if_pos hc]
        exact ih acc h
      · rw [if_neg hc]
        refine ih _ ?_
        rw [List.nodup_append]
        refine ⟨h, List.nodup_singleton x, ?_⟩
        intro a ha hx
        rcases List.mem_singleton.mp hx with rfl
        exact hc (List.elem_iff.mpr ha)
  exact main l [] List.nodup_nil

/-- Membership in the first `n` entries of a strictly descending list is
having fewer than `n` strictly larger entries. -/
theorem mem_take_sorted_desc : ∀ {l : List String}, l.Nodup →
    l.Pairwise (fun a b => pyStrLe b a = true) → ∀ (n : Nat) (k : String),
    (k ∈ l.take n ↔ k ∈ l ∧ (l.filter (fun x => pyStrLt k x)).length < n) := by
  intro l
  induction l with
  | nil =>
    intro _ _ n k
    simp
  | cons a t ih =>
    intro hnd hs n k
    obtain ⟨ha, hs'⟩ := List.pairwise_cons.mp hs
    obtain ⟨hna, hnd'⟩ := List.nodup_cons.mp hnd
    by_cases hk : k = a
    · subst hk
      have hfilter : List.filter (fun x => pyStrLt k x) (k :: t) = [] := by
        rw [List.filter_eq_nil_iff]
        intro x hx
        rcases List.mem_cons.mp hx with rfl | hx
        · unfold pyStrLt
          rw [charListLt_irrefl]
          exact Bool.false_ne_true
        · have := ha x hx
          unfold pyStrLe at this
          unfold pyStrLt
          intro hlt
          rw [hlt] at this
          cases this
      rw [hfilter]
      cases n with
      | zero => simp
      | succ m =>
        simp [List.take_succ_cons]
    · by_cases hkt : k ∈ t
      · have hka : pyStrLt k a = true := by
          have hle := ha k hkt
          unfold pyStrLe at hle
          have hne : k.data ≠ a.data := fun hd => hk (string_data_inj hd)
          rcases charListLt_connex hne with h | h
          · exact h
          · rw [h] at hle
            cases hle
        have hfilter : List.filter (fun x => pyStrLt k x) (a :: t)
            = a :: List.filter (fun x => pyStrLt k x) t := by
          rw [List.filter_cons_of_pos]
          exact hka
        rw [hfilter]
        cases n with
        | zero => simp
        | succ m =>
          rw [List.take_succ_cons]
          simp only [List.mem_cons, List.length_cons]
          rw [ih hnd' hs' m k]
          constructor
          · rintro (h | ⟨hmem, hlen⟩)
            · exact absurd h hk
            · exact ⟨Or.inr hmem, by omega⟩
          · rintro ⟨hmem | hmem, hlen⟩
            · exact absurd hmem hk
            · exact Or.inr ⟨hmem, by omega⟩
      · have hnmem : k ∉ a :: t := by
          intro h
          rcases List.mem_cons.mp h with rfl | h
          · exact hk rfl
          · exact hkt h
        constructor
        · intro h
          exact absurd (List.mem_of_mem_take h) hnmem
        · rintro ⟨h, _⟩
          exact absurd h hnmem

/-- The head of the timestamp-descending sort of a bucket with distinct
timestamp keys is exactly its unique newest entry. -/
theorem newestOf_eq_iff {bucket : List (String × Timestamp)}
    (hd : bucket.Pairwise (fun p q => tsKey p.2 ≠ tsKey q.2))
    (p : String × Timestamp) :
    newestOf bucket = some p ↔
      p ∈ bucket ∧ ∀ q ∈ bucket, tsKey q.2 ≤ tsKey p.2 := by
  haveI : IsTotal (String × Timestamp) (fun p q => tsKey q.2 ≤ tsKey p.2) :=
    ⟨fun a b => Nat.le_total (tsKey b.2) (tsKey a.2)⟩
  haveI : IsTrans (String × Timestamp) (fun p q => tsKey q.2 ≤ tsKey p.2) :=
    ⟨fun a b c hab hbc => le_trans hbc hab⟩
  have hperm := List.perm_insertionSort (fun p q => tsKey q.2 ≤ tsKey p.2) bucket
  have hsort := List.sorted_insertionSort (fun p q => tsKey q.2 ≤ tsKey p.2) bucket
  unfold newestOf
  cases hsl : bucket.insertionSort (fun p q => tsKey q.2 ≤ tsKey p.2) with
  | nil =>
    rw [hsl] at hperm
    have hb : bucket = [] := (hperm.symm).eq_nil
    subst hb
    simp
  | cons h tl =>
    rw [hsl] at hperm hsort
    have hmax : ∀ q ∈ bucket, tsKey q.2 ≤ tsKey h.2 := by
      intro q hq
      have hq' : q ∈ h :: tl := hperm.mem_iff.mpr hq
      rcases List.mem_cons.mp hq' with rfl | hq''
      · exact le_refl _
      · exact (List.pairwise_cons.mp hsort).1 q hq''
    have hhmem : h ∈ bucket := hperm.mem_iff.mp (List.mem_cons_self h tl)
    simp only [List.head?_cons, Option.some.injEq]
    constructor
    · rintro rfl
      exact ⟨hhmem, hmax⟩
    · rintro ⟨hp, hpmax⟩
      by_cases hne : h = p
      · exact hne
      · have hkey : tsKey h.2 = tsKey p.2 :=
          le_antisymm (hpmax h hhmem) (hmax p hp)
        have hsymm : Symmetric (fun p q : String × Timestamp => tsKey p.2 ≠ tsKey q.2) :=
          fun x y hxy => hxy.symm
        exact absurd hkey (List.Pairwise.forall hsymm hd hhmem hp hne)

/-- Membership in one grouping phase is being the newest entry of a bucket
that is among the `n` most recent ones. -/
theorem mem_keepFromBuckets {parsed : List (String × Timestamp)}
    {key : Timestamp → String} {n : Nat} {f : String}
    (hdist : parsed.Pairwise (fun p q => tsKey p.2 ≠ tsKey q.2)) :
    f ∈ keepFromBuckets parsed key n ↔
      ∃ p ∈ parsed, p.1 = f ∧ isTopBucket parsed key n p
        ∧ isNewestInBucket parsed key p := by
  unfold keepFromBuckets
  rw [List.mem_filterMap]
  have hkeysnd : (dictKeysOf (parsed.map (fun p => key p.2))).Nodup :=
    dictKeysOf_nodup _
  have hsortperm : (sortStrDesc (dictKeysOf (parsed.map (fun p => key p.2)))).Perm
      (dictKeysOf (parsed.map (fun p => key p.2))) := by
    unfold sortStrDesc
    exact List.perm_insertionSort _ _
  have hsortnd : (sortStrDesc (dictKeysOf (parsed.map (fun p => key p.2)))).Nodup :=
    hsortperm.symm.nodup hkeysnd
  have hsorted : (sortStrDesc (dictKeysOf (parsed.map (fun p => key p.2)))).Pairwise
      (fun a b => pyStrLe b a = true) := by
    haveI : IsTotal String (fun a b => pyStrLe b a = true) := ⟨descStr_total⟩
    haveI : IsTrans String (fun a b => pyStrLe b a = true) :=
      ⟨fun a b c => descStr_trans a b c⟩
    exact List.sorted_insertionSort _ _
  have hbdist : (parsed.filter (fun q => key q.2 == key q.2)).Pairwise
      (fun p q => tsKey p.2 ≠ tsKey q.2) := by
    exact List.Pairwise.sublist (List.filter_sublist parsed) hdist
  constructor
  · rintro ⟨k, hk, hg⟩
    rw [Option.map_eq_some'] at hg
    obtain ⟨p, hnp, hp1⟩ := hg
    have hbd : (parsed.filter (fun q => key q.2 == k)).Pairwise
        (fun p q => tsKey p.2 ≠ tsKey q.2) :=
      List.Pairwise.sublist (List.filter_sublist parsed) hdist
    obtain ⟨hpb, hpmax⟩ := (newestOf_eq_iff hbd p).mp hnp
    have hpparsed : p ∈ parsed := (List.mem_filter.mp hpb).1
    have hpkey : key p.2 = k := eq_of_beq (List.mem_filter.mp hpb).2
    refine ⟨p, hpparsed, hp1, ?_, ?_⟩
    · unfold isTopBucket
      obtain ⟨_, hcount⟩ := (mem_take_sorted_desc hsortnd hsorted n k).mp hk
      have hlen := (List.Perm.filter (fun x => pyStrLt k x) hsortperm).length_eq
      rw [hlen] at hcount
      rw [hpkey]
      exact hcount
    · unfold isNewestInBucket
      intro q hq hqkey
      refine hpmax q (List.mem_filter.mpr ⟨hq, ?_⟩)
      exact beq_iff_eq.mpr (hqkey.trans hpkey)
  · rintro ⟨p, hp, hpf, htop, hnew⟩
    refine ⟨key p.2, ?_, ?_⟩
    · rw [mem_take_sorted_desc hsortnd hsorted]
      constructor
      · rw [hsortperm.mem_iff, dictKeysOf_mem]
        exact List.mem_map_of_mem _ hp
      · have hlen := (List.Perm.filter (fun x => pyStrLt (key p.2) x)
          hsortperm).length_eq
        rw [hlen]
        exact htop
    · rw [Option.map_eq_some']
      refine ⟨p, ?_, hpf⟩
      have hbd : (parsed.filter (fun q => key q.2 == key p.2)).Pairwise
          (fun p q => tsKey p.2 ≠ tsKey q.2) :=
        List.Pairwise.sublist (List.filter_sublist parsed) hdist
      rw [newestOf_eq_iff hbd]
      refine ⟨List.mem_filter.mpr ⟨hp, beq_self_eq_true _⟩, ?_⟩
      intro q hq
      obtain ⟨hq1, hq2⟩ := List.mem_filter.mp hq
      exact hnew q hq1 (eq_of_beq hq2)

/-- The removal loop collects exactly the files outside the keep and active
sets, in order, and counts them. -/
theorem removalFold_eq (files toKeep active : List String)
    (acc : List String × Nat) :
    files.foldl
        (fun acc p =>
          if !toKeep.contains p && !active.contains p then (acc.1 ++ [p], acc.2 + 1)
          else acc) acc
      = (acc.1 ++ files.filter (fun p => !toKeep.contains p && !active.contains p),
         acc.2 + (files.filter
           (fun p => !toKeep.contains p && !active.contains p)).length) := by
  induction files generalizing acc with
  | nil => simp
  | cons p rest ih =>
    show (rest.foldl _ (if _ then _ else _)) = _
    by_cases hc : (!toKeep.contains p && !active.contains p) = true
    · rw [if_pos hc, ih]
      rw [List.filter_cons, if_pos hc]
      simp only [Prod.mk.injEq, List.append_assoc, List.singleton_append,
        List.length_cons]
      exact ⟨by simp, by omega⟩
    · rw [if_neg hc, ih]
      rw [List.filter_cons, if_neg hc]

/-- apply_mixed_retention in closed form: the removed list is the ordered
filter of the globbed files outside `to_keep` and the active set, and the
returned count is its length. -/
theorem applyMixedRetention_eq (files : List String) (d w m : Nat)
    (active : List String) :
    applyMixedRetention files d w m active
      = (files.filter (fun p =>
            !(mixedToKeep (parsedBackups files) d w m).contains p
              && !active.contains p),
         (files.filter (fun p =>
            !(mixedToKeep (parsedBackups files) d w m).contains p
              && !active.contains p)).length) := by
  unfold applyMixedRetention
  rw [removalFold_eq]
  simp

/-- C6 (corrected): under the mixed policy the removed files are exactly the
globbed files that are neither in the active-locks set nor the newest entry
of a day, week, or month bucket among the respectively `daily`, `weekly`,
`monthly` most recent ones — where the week bucket is keyed by the calendar
year paired with the ISO week number (not the ISO year-week of the claim) —
and the returned count is the number of files removed. -/
theorem c6_mixed_retention_characterization (files : List String)
    (daily weekly monthly : Nat) (active : List String)
    (hdist : (parsedBackups files).Pairwise (fun p q => tsKey p.2 ≠ tsKey q.2)) :
    (∀ f, f ∈ (applyMixedRetention files daily weekly monthly active).1 ↔
        (f ∈ files ∧ f ∉ active
          ∧ ¬ keptBySpec (parsedBackups files) daily weekly monthly f))
    ∧ (applyMixedRetention files daily weekly monthly active).2
        = (applyMixedRetention files daily weekly monthly active).1.length := by
  have hkeep : ∀ f, f ∈ mixedToKeep (parsedBackups files) daily weekly monthly
      ↔ keptBySpec (parsedBackups files) daily weekly monthly f := by
    intro f
    unfold mixedToKeep keptBySpec
    rw [List.mem_append, List.mem_append]
    rw [mem_keepFromBuckets hdist, mem_keepFromBuckets hdist,
      mem_keepFromBuckets hdist]
    constructor
    · rintro ((⟨p, hp, h1, h2, h3⟩ | ⟨p, hp, h1, h2, h3⟩) | ⟨p, hp, h1, h2, h3⟩)
      · exact ⟨p, hp, h1, Or.inl ⟨h2, h3⟩⟩
      · exact ⟨p, hp, h1, Or.inr (Or.inl ⟨h2, h3⟩)⟩
      · exact ⟨p, hp, h1, Or.inr (Or.inr ⟨h2, h3⟩)⟩
    · rintro ⟨p, hp, h1, (⟨h2, h3⟩ | ⟨h2, h3⟩ | ⟨h2, h3⟩)⟩
      · exact Or.inl (Or.inl ⟨p, hp, h1, h2, h3⟩)
      · exact Or.inl (Or.inr ⟨p, hp, h1, h2, h3⟩)
      · exact Or.inr ⟨p, hp, h1, h2, h3⟩
  constructor
  · intro f
    rw [applyMixedRetention_eq]
    rw [List.mem_filter]
    rw [Bool.and_eq_true, Bool.not_eq_true', Bool.not_eq_true']
    constructor
    · rintro ⟨hf, hkeepf, hactf⟩
      refine ⟨hf, ?_, ?_⟩
      · intro hmem
        have hcont : active.contains f = true := List.elem_iff.mpr hmem
        rw [hcont] at hactf
        cases hactf
      · intro hk
        have hmem := (hkeep f).mpr hk
        have hcont : (mixedToKeep (parsedBackups files) daily weekly
            monthly).contains f = true := List.elem_iff.mpr hmem
        rw [hcont] at hkeepf
        cases hkeepf
    · rintro ⟨hf, hact, hk⟩
      refine ⟨hf, ?_, ?_⟩
      · rw [Bool.eq_false_iff]
        intro hcont
        exact hk ((hkeep f).mp (List.elem_iff.mp hcont))
      · rw [Bool.eq_false_iff]
        intro hcont
        exact hact (List.elem_iff.mp hcont)
  · rw [applyMixedRetention_eq]

/-- C6 witness: a two-file history under policy daily=1 removes the older
file, which the characterization certifies is kept by no bucket. -/
theorem c6_mixed_retention_witness :
    (parsedBackups ["bar_20250610_120000.tar.gz", "bar_20250609_120000.tar.gz"]).Pairwise
        (fun p q => tsKey p.2 ≠ tsKey q.2)
      ∧ "bar_20250609_120000.tar.gz" ∈ (applyMixedRetention
          ["bar_20250610_120000.tar.gz", "bar_20250609_120000.tar.gz"] 1 0 0 []).1 :=
  ⟨by decide,
   ((c6_mixed_retention_characterization
      ["bar_20250610_120000.tar.gz", "bar_20250609_120000.tar.gz"] 1 0 0 []
      (by decide)).1 "bar_20250609_120000.tar.gz").mpr (by decide)⟩

/-- C6 counterexample: the files from 2024-12-30 (ISO week 2025-W01) and
2024-01-02 (ISO week 2024-W01) fall into the single code bucket `2024-W01`,
so under policy daily=1, weekly=2, monthly=1 the code removes the January
file even though it is the newest archive of one of the two most recent ISO
weeks, which the claim requires keeping. -/
theorem c6_iso_week_counterexample :
    "bar_20240102_120000.tar.gz" ∈ (applyMixedRetention
        ["bar_20241230_120000.tar.gz", "bar_20240102_120000.tar.gz"] 1 2 1 []).1
      ∧ keptByClaimISO
          (parsedBackups ["bar_20241230_120000.tar.gz", "bar_20240102_120000.tar.gz"])
          1 2 1 "bar_20240102_120000.tar.gz"
      ∧ isoYearWeek 2024 12 30 ≠ isoYearWeek 2024 1 2 := by
  refine ⟨by decide, by decide, by decide⟩

end ContainerBackup
